import Mathlib

/-!
Verification development for the Performer attention module
(`modeling_performer_attention.py`, PyTorch backend, and
`modeling_tf_performer_attention.py`, TensorFlow backend).

Tensors are modelled per (batch, head) slice: a matrix is a function
`ℕ → ℕ → ℚ` (first index: sequence position or feature row, second index:
feature or value column), with the relevant dimensions `L` (sequence length),
`M` (feature count) and `D` (head dimension) passed explicitly to every
contraction.  The batch and head axes of the source are fully parallel
(every einsum in the source carries the batch and head indices `i j`
untouched), so one slice captures the computation.
-/

open Finset

/-- One step of the accumulator of `CausalNumerator.forward` (source lines
41-50): `sums = sums + torch.einsum("ijk,ijl->ijkl", k_prime[index], v[index])`.
`causalNumSums kp v n m d` is the entry `(m, d)` of the accumulator after the
first `n` loop iterations. -/
def causalNumSums (kp v : ℕ → ℕ → ℚ) : ℕ → ℕ → ℕ → ℚ
  | 0, _, _ => 0
  | n + 1, m, d => causalNumSums kp v n m d + kp n m * v n d

/-- Output row `t` of `CausalNumerator.forward`: the loop body appends
`torch.einsum("ijkl,ijk->ijl", sums, q_prime[index])` after updating `sums`,
so position `t` uses the accumulator after `t + 1` iterations. -/
def causalNumeratorOut (M : ℕ) (qp kp v : ℕ → ℕ → ℚ) (t d : ℕ) : ℚ :=
  ∑ m in range M, causalNumSums kp v (t + 1) m d * qp t m

/-- Accumulator of `CausalDenominator.forward` (source lines 87-97):
`sums = sums + k_prime[index]`, entry `m` after `n` iterations. -/
def causalDenSums (kp : ℕ → ℕ → ℚ) : ℕ → ℕ → ℚ
  | 0, _ => 0
  | n + 1, m => causalDenSums kp n m + kp n m

/-- Output entry `t` of `CausalDenominator.forward`:
`torch.sum(q_prime[index] * sums, dim=2)` after the update of `sums`. -/
def causalDenominatorOut (M : ℕ) (qp kp : ℕ → ℕ → ℚ) (t : ℕ) : ℚ :=
  ∑ m in range M, qp t m * causalDenSums kp (t + 1) m

/-- `k_prime_t @ v` (source line 326 and 349): entry `(m, d)` of the
`M × D` product of the transposed prime keys with the values. -/
def kPrimeTV (L : ℕ) (kp v : ℕ → ℕ → ℚ) (m d : ℕ) : ℚ :=
  ∑ t in range L, kp t m * v t d

/-- Non-causal aggregation `q_prime @ (k_prime_t @ v)` (source line 349). -/
def noncausalOut (L M : ℕ) (qp kp v : ℕ → ℕ → ℚ) (t d : ℕ) : ℚ :=
  ∑ m in range M, qp t m * kPrimeTV L kp v m d

/-- Non-causal normalizer `d = q_prime @ k_prime.sum(dim=-2).unsqueeze(-1)`
(source line 366): entry for query position `t`. -/
def noncausalDenom (L M : ℕ) (qp kp : ℕ → ℕ → ℚ) (t : ℕ) : ℚ :=
  ∑ m in range M, qp t m * (∑ s in range L, kp s m)

/-- Stabilizer clamp (source line 369):
`d += 2 * self.normalization_stabilizer * (torch.abs(d) <= self.normalization_stabilizer)`,
with the boolean mask promoted to `1` or `0` as in the tensor arithmetic. -/
def clampStab (s d : ℚ) : ℚ :=
  d + 2 * s * (if |d| ≤ s then 1 else 0)

/-- Brute-force reference of the claim: the explicitly built `L × L` kernel
matrix `q_prime @ k_prime.transpose(-2, -1)`, entry `(t, s)`. -/
def kernelMatrix (M : ℕ) (qp kp : ℕ → ℕ → ℚ) (t s : ℕ) : ℚ :=
  ∑ m in range M, qp t m * kp s m

/-- Brute-force reference: causally masked kernel matrix (zero above the
diagonal). -/
def maskedKernelMatrix (M : ℕ) (qp kp : ℕ → ℕ → ℚ) (t s : ℕ) : ℚ :=
  if s ≤ t then kernelMatrix M qp kp t s else 0

/-- Brute-force reference: unnormalized non-causal context, row `t`. -/
def bruteNoncausalNum (L M : ℕ) (qp kp v : ℕ → ℕ → ℚ) (t d : ℕ) : ℚ :=
  ∑ s in range L, kernelMatrix M qp kp t s * v s d

/-- Brute-force reference: non-causal row sum of the kernel matrix. -/
def bruteNoncausalDen (L M : ℕ) (qp kp : ℕ → ℕ → ℚ) (t : ℕ) : ℚ :=
  ∑ s in range L, kernelMatrix M qp kp t s

/-- Brute-force reference: unnormalized causal context, row `t`. -/
def bruteCausalNum (L M : ℕ) (qp kp v : ℕ → ℕ → ℚ) (t d : ℕ) : ℚ :=
  ∑ s in range L, maskedKernelMatrix M qp kp t s * v s d

/-- Brute-force reference: causal (masked) row sum of the kernel matrix. -/
def bruteCausalDen (L M : ℕ) (qp kp : ℕ → ℕ → ℚ) (t : ℕ) : ℚ :=
  ∑ s in range L, maskedKernelMatrix M qp kp t s

lemma causalNumSums_eq (kp v : ℕ → ℕ → ℚ) (n m d : ℕ) :
    causalNumSums kp v n m d = ∑ s in range n, kp s m * v s d := by
  induction n with
  | zero => simp [causalNumSums]
  | succ p ih => simp [causalNumSums, sum_range_succ, ih]

lemma causalDenSums_eq (kp : ℕ → ℕ → ℚ) (n m : ℕ) :
    causalDenSums kp n m = ∑ s in range n, kp s m := by
  induction n with
  | zero => simp [causalDenSums]
  | succ p ih => simp [causalDenSums, sum_range_succ, ih]

lemma filter_le_range_eq (t L : ℕ) (ht : t < L) :
    (range L).filter (fun s => s ≤ t) = range (t + 1) := by
  ext a
  simp only [mem_filter, mem_range, Nat.lt_succ_iff]
  omega

lemma bruteCausalNum_eq_sum (L M : ℕ) (qp kp v : ℕ → ℕ → ℚ) (t d : ℕ)
    (ht : t < L) :
    bruteCausalNum L M qp kp v t d
      = ∑ s in range (t + 1), kernelMatrix M qp kp t s * v s d := by
  unfold bruteCausalNum maskedKernelMatrix
  rw [← filter_le_range_eq t L ht, sum_filter]
  exact sum_congr rfl fun s _ => by
    by_cases h : s ≤ t <;> simp [h]

lemma bruteCausalDen_eq_sum (L M : ℕ) (qp kp : ℕ → ℕ → ℚ) (t : ℕ)
    (ht : t < L) :
    bruteCausalDen L M qp kp t = ∑ s in range (t + 1), kernelMatrix M qp kp t s := by
  unfold bruteCausalDen maskedKernelMatrix
  rw [← filter_le_range_eq t L ht, sum_filter]

lemma causalNumeratorOut_eq_brute (L M : ℕ) (qp kp v : ℕ → ℕ → ℚ) (t d : ℕ)
    (ht : t < L) :
    causalNumeratorOut M qp kp v t d = bruteCausalNum L M qp kp v t d := by
  rw [bruteCausalNum_eq_sum L M qp kp v t d ht]
  unfold causalNumeratorOut kernelMatrix
  calc ∑ m in range M, causalNumSums kp v (t + 1) m d * qp t m
      = ∑ m in range M, ∑ s in range (t + 1), kp s m * v s d * qp t m := by
        exact sum_congr rfl fun m _ => by rw [causalNumSums_eq, sum_mul]
    _ = ∑ s in range (t + 1), ∑ m in range M, kp s m * v s d * qp t m :=
        sum_comm
    _ = ∑ s in range (t + 1), (∑ m in range M, qp t m * kp s m) * v s d := by
        exact sum_congr rfl fun s _ => by rw [sum_mul]; exact sum_congr rfl fun m _ => by ring

lemma causalDenominatorOut_eq_brute (L M : ℕ) (qp kp : ℕ → ℕ → ℚ) (t : ℕ)
    (ht : t < L) :
    causalDenominatorOut M qp kp t = bruteCausalDen L M qp kp t := by
  rw [bruteCausalDen_eq_sum L M qp kp t ht]
  unfold causalDenominatorOut kernelMatrix
  calc ∑ m in range M, qp t m * causalDenSums kp (t + 1) m
      = ∑ m in range M, ∑ s in range (t + 1), qp t m * kp s m := by
        exact sum_congr rfl fun m _ => by rw [causalDenSums_eq, mul_sum]
    _ = ∑ s in range (t + 1), ∑ m in range M, qp t m * kp s m := sum_comm

lemma noncausalOut_eq_brute (L M : ℕ) (qp kp v : ℕ → ℕ → ℚ) (t d : ℕ) :
    noncausalOut L M qp kp v t d = bruteNoncausalNum L M qp kp v t d := by
  unfold noncausalOut kPrimeTV bruteNoncausalNum kernelMatrix
  calc ∑ m in range M, qp t m * ∑ s in range L, kp s m * v s d
      = ∑ m in range M, ∑ s in range L, qp t m * (kp s m * v s d) := by
        exact sum_congr rfl fun m _ => by rw [mul_sum]
    _ = ∑ s in range L, ∑ m in range M, qp t m * (kp s m * v s d) := sum_comm
    _ = ∑ s in range L, (∑ m in range M, qp t m * kp s m) * v s d := by
        exact sum_congr rfl fun s _ => by rw [sum_mul]; exact sum_congr rfl fun m _ => by ring

lemma noncausalDenom_eq_brute (L M : ℕ) (qp kp : ℕ → ℕ → ℚ) (t : ℕ) :
    noncausalDenom L M qp kp t = bruteNoncausalDen L M qp kp t := by
  unfold noncausalDenom bruteNoncausalDen kernelMatrix
  calc ∑ m in range M, qp t m * ∑ s in range L, kp s m
      = ∑ m in range M, ∑ s in range L, qp t m * kp s m := by
        exact sum_congr rfl fun m _ => by rw [mul_sum]
    _ = ∑ s in range L, ∑ m in range M, qp t m * kp s m := sum_comm

/-- C2: For every sequence length, feature count and prime-feature/value
input, the non-causal aggregation `q_prime @ (k_prime_t @ v)` and the causal
position-by-position recurrence of `CausalNumerator.forward` and
`CausalDenominator.forward`, each followed by the configured normalization
(stabilizer clamp, then elementwise division), produce exactly the same
context as a brute-force reference that explicitly builds the `L × L`
(causally masked, in the causal case) kernel matrix `q_prime k_prime_t` and
normalizes it the same way.  Exact rational equality subsumes the floating
tolerance of the claim. -/
theorem linear_attention_matches_bruteforce (L M : ℕ) (qp kp v : ℕ → ℕ → ℚ)
    (s : ℚ) (t d : ℕ) (ht : t < L) :
    noncausalOut L M qp kp v t d / clampStab s (noncausalDenom L M qp kp t)
      = bruteNoncausalNum L M qp kp v t d
          / clampStab s (bruteNoncausalDen L M qp kp t)
    ∧ causalNumeratorOut M qp kp v t d
          / clampStab s (causalDenominatorOut M qp kp t)
      = bruteCausalNum L M qp kp v t d
          / clampStab s (bruteCausalDen L M qp kp t) := by
  constructor
  · rw [noncausalOut_eq_brute, noncausalDenom_eq_brute]
  · rw [causalNumeratorOut_eq_brute L M qp kp v t d ht,
      causalDenominatorOut_eq_brute L M qp kp t ht]

/-- Witness for C2 at a concrete input (`L = 2`, `M = 2`, `t = 1`). -/
theorem linear_attention_matches_bruteforce_witness :
    (1 : ℕ) < 2
    ∧ (noncausalOut 2 2 (fun t m => t + m) (fun t m => t + 2 * m)
          (fun t d => t + d + 1) 1 0
          / clampStab 1 (noncausalDenom 2 2 (fun t m => t + m) (fun t m => t + 2 * m) 1)
        = bruteNoncausalNum 2 2 (fun t m => t + m) (fun t m => t + 2 * m)
            (fun t d => t + d + 1) 1 0
          / clampStab 1 (bruteNoncausalDen 2 2 (fun t m => t + m) (fun t m => t + 2 * m) 1)
      ∧ causalNumeratorOut 2 (fun t m => t + m) (fun t m => t + 2 * m)
            (fun t d => t + d + 1) 1 0
          / clampStab 1 (causalDenominatorOut 2 (fun t m => t + m) (fun t m => t + 2 * m) 1)
        = bruteCausalNum 2 2 (fun t m => t + m) (fun t m => t + 2 * m)
            (fun t d => t + d + 1) 1 0
          / clampStab 1 (bruteCausalDen 2 2 (fun t m => t + m) (fun t m => t + 2 * m) 1)) :=
  ⟨by decide,
    linear_attention_matches_bruteforce 2 2 (fun t m => t + m) (fun t m => t + 2 * m)
      (fun t d => t + d + 1) 1 1 0 (by decide)⟩

/-- Reverse-walk accumulator `grads` of `CausalNumerator.backward` (source
lines 56-70): starting from zero, step `j` (processing sequence index
`L - 1 - j`) performs
`grads = grads + torch.einsum("ijk,ijl->ijkl", q_prime[index], grad_outputs[index])`.
`bwGradsAcc L qp g j m d` is entry `(m, d)` after `j` reverse steps. -/
def bwGradsAcc (L : ℕ) (qp g : ℕ → ℕ → ℚ) : ℕ → ℕ → ℕ → ℚ
  | 0, _, _ => 0
  | j + 1, m, d => bwGradsAcc L qp g j m d + qp (L - 1 - j) m * g (L - 1 - j) d

/-- The gradient w.r.t. `k_prime` that the source returns (line 68):
`torch.einsum("ijkl,ijl->ijk", grads, k_prime[index])`, i.e. the accumulator
contracted over its value axis (length `D`) against `k_prime[index]` — the
second operand is `k_prime`, not `v`.  Index `i` is processed at reverse step
`L - i`, after the accumulator update of that step. -/
def codeKGrad (L D : ℕ) (qp kp g : ℕ → ℕ → ℚ) (i m : ℕ) : ℚ :=
  ∑ d in range D, bwGradsAcc L qp g (L - i) m d * kp i d

/-- The gradient w.r.t. `v` that the source returns (line 69):
`torch.einsum("ijkl,ijk->ijl", grads, k_prime[index])`. -/
def codeVGrad (L M : ℕ) (qp kp g : ℕ → ℕ → ℚ) (i d : ℕ) : ℚ :=
  ∑ m in range M, bwGradsAcc L qp g (L - i) m d * kp i m

/-- Scalar loss obtained by pairing the unrolled forward recurrence with the
incoming output gradients `g`: differentiating this in an input entry yields
the gradient that generic autodiff of the unrolled loop would produce. -/
def unrolledLoss (L M D : ℕ) (qp kp v g : ℕ → ℕ → ℚ) : ℚ :=
  ∑ t in range L, ∑ d in range D, g t d * causalNumeratorOut M qp kp v t d

/-- Bump a single entry of a matrix by `δ`. -/
def bumpAt (f : ℕ → ℕ → ℚ) (u m₀ : ℕ) (δ : ℚ) : ℕ → ℕ → ℚ :=
  fun a b => if a = u ∧ b = m₀ then f a b + δ else f a b

/-- Partial derivative of the unrolled loss in the entry `(u, m)` of
`k_prime`.  The loss is affine in each single entry of `k_prime` (every
monomial of the unrolled forward contains exactly one `k_prime` factor), so
the unit-bump finite difference is exactly the derivative of the unrolled
`L`-step loop. -/
def unrolledKGrad (L M D : ℕ) (qp kp v g : ℕ → ℕ → ℚ) (u m : ℕ) : ℚ :=
  unrolledLoss L M D qp (bumpAt kp u m 1) v g - unrolledLoss L M D qp kp v g

/-- The gradient w.r.t. `k_prime` stated by the claim: the accumulator `G`
contracted against `v_t` (this is what the adjoint of the forward recurrence
requires). -/
def claimKGrad (L D : ℕ) (qp v g : ℕ → ℕ → ℚ) (i m : ℕ) : ℚ :=
  ∑ d in range D, bwGradsAcc L qp g (L - i) m d * v i d

/-- C1: the claim states that `CausalNumerator.backward` returns gradient
w.r.t. `k_prime[t]` equal to `G · v[t]` and that the returned gradients equal
those of differentiating the unrolled forward recurrence.  The code instead
contracts `G` against `k_prime[t]` (source line 68 passes `k_prime[index]`
where the einsum pattern `"ijkl,ijl->ijk"` requires the `D`-length operand
`v[index]`).  At `L = M = D = 1`, `q_prime = 1`, `k_prime = 2`, `v = 3`,
`g = 1`: the code returns `2`, while both the claimed formula `G · v` and the
derivative of the unrolled loop give `3`. -/
theorem causal_backward_kgrad_diverges :
    codeKGrad 1 1 (fun _ _ => 1) (fun _ _ => 2) (fun _ _ => 1) 0 0 = 2
    ∧ unrolledKGrad 1 1 1 (fun _ _ => 1) (fun _ _ => 2) (fun _ _ => 3)
        (fun _ _ => 1) 0 0 = 3
    ∧ claimKGrad 1 1 (fun _ _ => 1) (fun _ _ => 3) (fun _ _ => 1) 0 0 = 3
    ∧ (2 : ℚ) ≠ 3 := by
  refine ⟨?_, ?_, ?_, by norm_num⟩ <;>
    norm_num [codeKGrad, unrolledKGrad, claimKGrad, unrolledLoss, causalNumeratorOut,
      causalNumSums, bwGradsAcc, bumpAt, Finset.sum_range_succ]

/-- C6 counterexample: the claim asserts the clamped normalizer has the same
sign as the original entry `d` for every `d`.  At `d = -1/2`,
`s = 1` the clamp adds `2` and yields `3/2 > 0`, flipping a negative entry to
a positive one, so sign preservation fails. -/
theorem clamp_sign_not_preserved :
    ¬ (clampStab 1 (-1/2) < 0 ↔ ((-1/2 : ℚ) < 0)) := by
  norm_num [clampStab, abs_of_nonpos]

/-- C6 amended: for every normalizer entry `d` and positive stabilizer `s`,
the clamping step yields a nonzero value (so the subsequent division is
guarded), the value is unchanged when the magnitude of `d` exceeds `s`, and
the sign is preserved whenever `d` is positive; a nonpositive `d` inside the
stabilizer band becomes positive instead of keeping its sign. -/
theorem clamp_nonzero_of_pos_stabilizer (d s : ℚ) (hs : 0 < s) :
    clampStab s d ≠ 0 ∧ (0 < d → 0 < clampStab s d) ∧ (s < |d| → clampStab s d = d) := by
  unfold clampStab
  by_cases h : |d| ≤ s
  · have hd : -s ≤ d := neg_le_of_abs_le h
    refine ⟨by simp [h]; nlinarith, fun hd0 => by simp [h]; nlinarith,
      fun hlt => absurd h (not_le.mpr hlt)⟩
  · have hd : d ≠ 0 := by
      intro h0
      exact h (by simp [h0]; linarith)
    exact ⟨by simpa [h] using hd, fun hd0 => by simpa [h] using hd0,
      fun _ => by simp [h]⟩

/-- Witness for C6 at `d = 5`, `s = 1`. -/
theorem clamp_nonzero_of_pos_stabilizer_witness :
    (0 : ℚ) < 1 ∧ clampStab 1 5 ≠ 0 ∧ (0 < (5 : ℚ) → 0 < clampStab 1 5) :=
  ⟨by norm_num, (clamp_nonzero_of_pos_stabilizer 5 1 (by norm_num)).1,
    (clamp_nonzero_of_pos_stabilizer 5 1 (by norm_num)).2.1⟩

/-- Modelled from the spec: `configuration_performer_attention.py`
(`PerformerAttentionConfig`) is not under `src/`.  Per spec sections 3 and 6
the configuration surface recognizes exactly these boolean options: `causal`,
`use_orthogonal_features`, `regularize_feature_norms`,
`redraw_stochastically`, `normalize_output`, `use_qkv_linear_layers`.
`PerformerAttention.__init__` copies the configuration fields onto the module
verbatim (`self.__dict__.update(config)`, source lines 128-141), so the
boolean attributes of a module are exactly these named values. -/
def moduleBoolAttrs (causal useOrth regNorms redrawStoch normOut useQKV : Bool) :
    List (String × Bool) :=
  [("causal", causal), ("use_orthogonal_features", useOrth),
   ("regularize_feature_norms", regNorms), ("redraw_stochastically", redrawStoch),
   ("normalize_output", normOut), ("use_qkv_linear_layers", useQKV)]

/-- Python attribute access on the module for a boolean attribute: `none`
models an `AttributeError`. -/
def getBoolAttr (attrs : List (String × Bool)) (name : String) : Option Bool :=
  (attrs.find? (fun p => p.1 == name)).map Prod.snd

/-- `PerformerAttention.compute_attention_with_projected_queries_and_keys`
(source lines 315-373) on the path with `mask = None` and
`head_mask = None`, per (batch, head) slice.  The branch on line 339 reads
the attribute `self.casual` (and line 355 reads it again inside the
`normalize_output` branch); an absent attribute aborts the call with an
`AttributeError`, modelled as `Except.error`. -/
def torchComputeAttention (attrs : List (String × Bool)) (s : ℚ) (L M : ℕ)
    (qp kp v : ℕ → ℕ → ℚ) : Except String (ℕ → ℕ → ℚ) :=
  match getBoolAttr attrs "casual" with
  | none => Except.error "AttributeError: PerformerAttention object has no attribute casual"
  | some casual =>
    let output : ℕ → ℕ → ℚ :=
      if casual then fun t d => causalNumeratorOut M qp kp v t d
      else fun t d => noncausalOut L M qp kp v t d
    match getBoolAttr attrs "normalize_output" with
    | none => Except.error "AttributeError: PerformerAttention object has no attribute normalize_output"
    | some normOut =>
      if normOut then
        match getBoolAttr attrs "casual" with
        | none => Except.error "AttributeError: PerformerAttention object has no attribute casual"
        | some casual2 =>
          let den : ℕ → ℚ :=
            if casual2 then causalDenominatorOut M qp kp
            else noncausalDenom L M qp kp
          Except.ok fun t d => output t d / clampStab s (den t)
      else Except.ok output

/-- C3: with the configuration of the claim (`d_model = 8`, `num_heads = 2`,
`kernel_type = relu`, `causal = true`) the relu kernel forces the
never-use-softmax policy, so every forward call reaches the approximate path
and `compute_attention_with_projected_queries_and_keys`.  That function
branches on `self.casual` (source line 339), but the configuration defines
`causal`, not `casual` (the softmax branch of `forward`, line 249, reads
`self.causal`), so both forward calls of the claimed two-run experiment abort
with an `AttributeError` and return no outputs at all — in particular no
outputs whose positions 1 and 2 could be compared.  Quantified over every
value assignment, both runs included. -/
theorem causal_run_hits_missing_casual_attribute :
    ∀ (useOrth regNorms redrawStoch normOut useQKV : Bool) (s : ℚ) (L M : ℕ)
      (qp kp v : ℕ → ℕ → ℚ),
      torchComputeAttention
          (moduleBoolAttrs true useOrth regNorms redrawStoch normOut useQKV)
          s L M qp kp v
        = Except.error "AttributeError: PerformerAttention object has no attribute casual" := by
  intro useOrth regNorms redrawStoch normOut useQKV s L M qp kp v
  rfl

/-- `tf.math.reduce_sum(k_prime)` with no axis argument
(`modeling_tf_performer_attention.py`, line 221): the sum of every entry of
the tensor.  Modelled on one (batch, head) slice given as a list of rows
(one row per sequence position). -/
def tfReduceSumAll (kp : List (List ℚ)) : ℚ :=
  (kp.map (fun row => row.sum)).sum

/-- The right operand the TensorFlow backend builds for the normalizer
product (line 221): `tf.expand_dims(tf.math.reduce_sum(k_prime), -1)` turns
the rank-0 total sum into a rank-1 tensor with a single entry. -/
def tfNormalizerOperand (kp : List (List ℚ)) : List ℚ :=
  [tfReduceSumAll kp]

/-- The operand the claim (and the PyTorch backend, line 366) requires: the
sum of `k_prime` over the sequence-position axis only — the rows summed
elementwise, one entry per feature. -/
def seqAxisSums (kp : List (List ℚ)) : List ℚ :=
  match kp with
  | [] => []
  | [r] => r
  | r :: rs => List.zipWith (fun a b => a + b) r (seqAxisSums rs)

/-- Per-feature sequence sum in the function-matrix representation
(`k_prime.sum(dim=-2)` of the PyTorch backend). -/
def seqSumF (L : ℕ) (kp : ℕ → ℕ → ℚ) (m : ℕ) : ℚ :=
  ∑ s in range L, kp s m

/-- The normalizer the claim describes: `q_prime` times the per-feature
sequence sums of `k_prime`. -/
def claimedNormalizer (L M : ℕ) (qp kp : ℕ → ℕ → ℚ) (t : ℕ) : ℚ :=
  ∑ m in range M, qp t m * seqSumF L kp m

/-- C4: the claim says that in both backends the non-causal normalizer equals
`q_prime` times the sum of `k_prime` over the sequence-position axis.  The
PyTorch backend satisfies this (first conjunct).  The TensorFlow backend does
not: `tf.math.reduce_sum(k_prime)` carries no axis argument, so it collapses
every axis to the single scalar total; at
`k_prime = [[1, 2], [3, 4]]` (`L = 2` positions, `M = 2` features) the built
operand is `[10]`, whereas the claimed per-feature sequence sums are
`[4, 6]` (second and third conjuncts) — and the rank-1 operand is not even a
valid `tf.linalg.matmul` input. -/
theorem noncausal_normalizer_tf_sums_all_axes :
    (∀ (L M : ℕ) (qp kp : ℕ → ℕ → ℚ) (t : ℕ),
        noncausalDenom L M qp kp t = claimedNormalizer L M qp kp t)
    ∧ tfNormalizerOperand [[1, 2], [3, 4]] = [10]
    ∧ seqAxisSums [[1, 2], [3, 4]] = [4, 6]
    ∧ tfNormalizerOperand [[1, 2], [3, 4]] ≠ seqAxisSums [[1, 2], [3, 4]] := by
  refine ⟨fun L M qp kp t => rfl, ?_, ?_, ?_⟩ <;>
    norm_num [tfNormalizerOperand, tfReduceSumAll, seqAxisSums]

set_option linter.unusedVariables false in
/-- `TFPerformerAttention.compute_attention_with_projected_queries_and_keys`
(`modeling_tf_performer_attention.py`, lines 209-227) with `mask = None`, per
(batch, head) slice.  The function receives the configured `causal` flag
(every configuration field is an attribute of the layer) but its body never
reads it: the aggregation is always
`output = q_prime @ (k_prime_t @ v)` (lines 214-215).  In the
`normalize_output` branch the right operand of the normalizer product is
`tfNormalizerOperand`, a rank-1 tensor, and `tf.linalg.matmul` requires both
operands to have rank at least 2, so graph construction fails there
(modelled as `Except.error`). -/
def tfComputeAttention (causal normOut : Bool) (L M : ℕ)
    (qp kp v : ℕ → ℕ → ℚ) : Except String (ℕ → ℕ → ℚ) :=
  let output : ℕ → ℕ → ℚ :=
    fun t d => ∑ m in range M, qp t m * (∑ u in range L, kp u m * v u d)
  if normOut then
    Except.error "InvalidArgumentError: In[1] is not a matrix"
  else Except.ok output

/-- C10: the TensorFlow approximate-path aggregation computes exactly the
same function whether the configured `causal` flag is true or false (first
conjunct, for both values of `normalize_output`), and what it computes is the
non-causal aggregation `q_prime @ (k_prime_t @ v)` — literally the PyTorch
non-causal branch `noncausalOut` (second conjunct); no causal recurrence
exists in that backend. -/
theorem tf_compute_attention_ignores_causal_flag :
    ∀ (b₁ b₂ normOut : Bool) (L M : ℕ) (qp kp v : ℕ → ℕ → ℚ),
      tfComputeAttention b₁ normOut L M qp kp v
          = tfComputeAttention b₂ normOut L M qp kp v
      ∧ tfComputeAttention b₁ false L M qp kp v
          = Except.ok (fun t d => noncausalOut L M qp kp v t d) := by
  intro b₁ b₂ normOut L M qp kp v
  exact ⟨rfl, rfl⟩

/-- The mutable feature state of a `PerformerAttention` module: the
`random_features` buffer (`none` before any generation) and the
`calls_since_last_redraw` counter.  The matrix type is abstract (`α`): the
scheduler claims concern only identity and replacement of the buffer, never
its entries. -/
structure ModFeatState (α : Type) where
  random_features : Option α
  calls_since_last_redraw : ℕ

/-- `PerformerAttention._generate_feature_matrix` (source lines 392-424),
state-level behavior.  The Gaussian draws and the QR orthogonalization are
randomness/linear-algebra externals, so the matrix each branch produces
enters as an oracle argument (`freshGauss` for the plain-Gaussian branch,
`orthFinal` for the assembled orthogonal-block matrix).  The
`use_orthogonal_features = False` branch RETURNS its matrix (line 397)
without assigning `self.random_features`; the orthogonal branch assigns
`self.random_features` (line 424) and returns `None`. -/
def generateFeatureMatrix {α : Type} (useOrth : Bool) (freshGauss orthFinal : α)
    (st : ModFeatState α) : Option α × ModFeatState α :=
  if !useOrth then (some freshGauss, st)
  else (none, { st with random_features := some orthFinal })

/-- `PerformerAttention.redraw_features_now` (source lines 196-203): calls
`_generate_feature_matrix` (discarding its return value) and resets the
counter to zero.  (The source first reads `self.random_features.device`,
which presumes a matrix already exists; the callers below only invoke it in
that situation.) -/
def redrawFeaturesNow {α : Type} (useOrth : Bool) (freshGauss orthFinal : α)
    (st : ModFeatState α) : ModFeatState α :=
  let st' := (generateFeatureMatrix useOrth freshGauss orthFinal st).2
  { st' with calls_since_last_redraw := 0 }

/-- `PerformerAttention._redraw_features_if_needed` (source lines 426-443).
`coin` is the Bernoulli draw of the stochastic mode (an oracle). -/
def redrawIfNeeded {α : Type} (useOrth : Bool) (interval : Option ℕ)
    (stoch coin : Bool) (freshGauss orthFinal : α) (st : ModFeatState α) :
    ModFeatState α :=
  match st.random_features with
  | none => (generateFeatureMatrix useOrth freshGauss orthFinal st).2
  | some _ =>
    match interval with
    | none => st
    | some k =>
      if stoch then
        if coin then redrawFeaturesNow useOrth freshGauss orthFinal st else st
      else if k ≤ st.calls_since_last_redraw then
        redrawFeaturesNow useOrth freshGauss orthFinal st
      else
        { st with calls_since_last_redraw := st.calls_since_last_redraw + 1 }

/-- A run of consecutive forward calls on the approximate path in the regime
of claim C7: fixed interval `k`, non-stochastic mode,
`use_orthogonal_features = true` (the only regime in which this code base can
hold an existing feature matrix at all), starting from an existing matrix
`m₀` and counter `0`; call number `n + 1` draws the oracle matrix
`orthSeq n`. -/
def schedRun (k m₀ : ℕ) (orthSeq : ℕ → ℕ) : ℕ → ModFeatState ℕ
  | 0 => ⟨some m₀, 0⟩
  | n + 1 => redrawIfNeeded true (some k) false false (orthSeq n) (orthSeq n)
      (schedRun k m₀ orthSeq n)

lemma succ_mod_of_mod_eq (k p : ℕ) (h : p % (k + 1) = k) :
    (p + 1) % (k + 1) = 0 := by
  obtain ⟨q, hq⟩ : ∃ q, p = (k + 1) * q + k :=
    ⟨p / (k + 1), by conv_lhs => rw [← Nat.div_add_mod p (k + 1), h]⟩
  have h1 : p + 1 = (k + 1) * (q + 1) := by rw [hq]; ring
  rw [h1, Nat.mul_mod_right]

lemma succ_mod_of_mod_lt (k p : ℕ) (h : p % (k + 1) < k) :
    (p + 1) % (k + 1) = p % (k + 1) + 1 := by
  obtain ⟨q, hq⟩ : ∃ q, p = (k + 1) * q + p % (k + 1) :=
    ⟨p / (k + 1), by conv_lhs => rw [← Nat.div_add_mod p (k + 1)]⟩
  have h1 : p + 1 = (p % (k + 1) + 1) + (k + 1) * q := by omega
  rw [h1, Nat.add_mul_mod_self_left, Nat.mod_eq_of_lt (by omega)]

lemma schedRun_invariant (k m₀ : ℕ) (orthSeq : ℕ → ℕ) (n : ℕ) :
    (schedRun k m₀ orthSeq n).calls_since_last_redraw = n % (k + 1)
    ∧ ∃ x, (schedRun k m₀ orthSeq n).random_features = some x := by
  induction n with
  | zero => exact ⟨by simp [schedRun], m₀, by simp [schedRun]⟩
  | succ p ih =>
    obtain ⟨hc, x, hx⟩ := ih
    have hlt : p % (k + 1) < k + 1 := Nat.mod_lt _ (Nat.succ_pos k)
    by_cases hk : k ≤ p % (k + 1)
    · have hpk : p % (k + 1) = k := le_antisymm (by omega) hk
      have hmod := succ_mod_of_mod_eq k p hpk
      refine ⟨?_, orthSeq p, ?_⟩ <;>
        simp [schedRun, redrawIfNeeded, hx, hc, hk, redrawFeaturesNow,
          generateFeatureMatrix, hmod]
    · have hmod := succ_mod_of_mod_lt k p (by omega)
      refine ⟨?_, x, ?_⟩ <;>
        simp [schedRun, redrawIfNeeded, hx, hc, hk, hmod]

lemma schedRun_succ_features (k m₀ : ℕ) (orthSeq : ℕ → ℕ) (p : ℕ) :
    ((p + 1) % (k + 1) = 0 →
      (schedRun k m₀ orthSeq (p + 1)).random_features = some (orthSeq p))
    ∧ ((p + 1) % (k + 1) ≠ 0 →
      (schedRun k m₀ orthSeq (p + 1)).random_features
        = (schedRun k m₀ orthSeq p).random_features) := by
  obtain ⟨hc, x, hx⟩ := schedRun_invariant k m₀ orthSeq p
  have hlt : p % (k + 1) < k + 1 := Nat.mod_lt _ (Nat.succ_pos k)
  by_cases hk : k ≤ p % (k + 1)
  · have hpk : p % (k + 1) = k := le_antisymm (by omega) hk
    have hmod := succ_mod_of_mod_eq k p hpk
    constructor
    · intro _
      simp [schedRun, redrawIfNeeded, hx, hc, hk, redrawFeaturesNow,
        generateFeatureMatrix]
    · intro h
      exact absurd hmod h
  · have hmod := succ_mod_of_mod_lt k p (by omega)
    constructor
    · intro h0
      omega
    · intro _
      simp [schedRun, redrawIfNeeded, hx, hc, hk]

/-- C7 amended: with `feature_redraw_interval = k` (`k ≥ 1`),
non-stochastic mode and an existing feature matrix, the code replaces the
feature matrix exactly once every `k + 1` forward calls — not every `k` as
claimed: the counter `calls_since_last_redraw` after `n` calls equals
`n % (k + 1)`; a matrix is always present; on every call whose number is a
positive multiple of `k + 1` the matrix is replaced by the freshly drawn
one; and on every other call it is identical to the matrix of the previous
call.  The counter is reset to zero at each redraw (the `n % (k + 1) = 0`
case of the counter clause). -/
theorem feature_redraw_period_is_interval_plus_one (k m₀ : ℕ)
    (orthSeq : ℕ → ℕ) (n : ℕ) (_hk : 1 ≤ k) :
    (schedRun k m₀ orthSeq n).calls_since_last_redraw = n % (k + 1)
    ∧ (0 < n → n % (k + 1) = 0 →
        (schedRun k m₀ orthSeq n).random_features = some (orthSeq (n - 1)))
    ∧ (0 < n → n % (k + 1) ≠ 0 →
        (schedRun k m₀ orthSeq n).random_features
          = (schedRun k m₀ orthSeq (n - 1)).random_features) := by
  refine ⟨(schedRun_invariant k m₀ orthSeq n).1, ?_, ?_⟩ <;>
    intro hn hmod <;> cases n with
  | zero => omega
  | succ p =>
    simp only [Nat.succ_sub_one]
    first
      | exact (schedRun_succ_features k m₀ orthSeq p).1 hmod
      | exact (schedRun_succ_features k m₀ orthSeq p).2 hmod

/-- Witness for C7 (amended) at `k = 2`, `n = 3` (a redraw call) and the
counter clause. -/
theorem feature_redraw_period_witness :
    (1 ≤ 2 ∧ 0 < 3 ∧ 3 % (2 + 1) = 0)
    ∧ (schedRun 2 5 (fun i => i + 10) 3).calls_since_last_redraw = 3 % (2 + 1)
    ∧ (schedRun 2 5 (fun i => i + 10) 3).random_features = some 12 :=
  ⟨⟨by decide, by decide, by decide⟩,
    (feature_redraw_period_is_interval_plus_one 2 5 (fun i => i + 10) 3 (by decide)).1,
    (feature_redraw_period_is_interval_plus_one 2 5 (fun i => i + 10) 3 (by decide)).2.1
      (by decide) (by decide)⟩

/-- C7 counterexample: the claim as stated says the matrix is replaced
exactly once every `k` forward calls.  With `k = 1`, an existing matrix
`m₀ = 0` and fresh oracle matrices `1, 2, ...`, the first forward call would
then have to replace the matrix (one replacement per call), but the code
leaves `random_features` at the original `some 0` and only increments the
counter. -/
theorem feature_redraw_first_call_no_replacement :
    (schedRun 1 0 (fun i => i + 1) 1).random_features = some 0
    ∧ (schedRun 1 0 (fun i => i + 1) 1).random_features ≠ some 1 := by
  constructor <;> simp [schedRun, redrawIfNeeded]

/-- C8: on the first forward call of a module with
`use_orthogonal_features = false` and no feature matrix yet,
`_redraw_features_if_needed` calls `_generate_feature_matrix`, which draws
the Gaussian matrix and returns it — but never assigns
`self.random_features` (source line 397), and the caller discards the return
value (lines 428-429).  Concretely (oracle matrix id `7`): the generation
step does produce the matrix (first conjunct), yet the module state after
the call still holds no feature matrix and is unchanged (second conjunct),
contradicting the claim that the matrix is stored on the module. -/
theorem generate_without_orthogonal_does_not_store :
    (generateFeatureMatrix (α := ℕ) false 7 7 ⟨none, 0⟩).1 = some 7
    ∧ redrawIfNeeded (α := ℕ) false (some 5) false false 7 7 ⟨none, 0⟩
        = ⟨none, 0⟩ := by
  constructor <;> rfl

/-- Decision taken by `PerformerAttention.forward` between its three
continuations (source lines 242-263): the exact-softmax branch, the
unsupported-configuration error for `output_attentions` on the approximate
path, and the FAVOR+ branch. -/
inductive ForwardPath : Type where
  | softmaxPath : ForwardPath
  | unsupportedError : ForwardPath
  | favorPath : ForwardPath
  deriving DecidableEq

/-- `SHORT_SEQUENCE_BEHAVIOR_CALLABLES["use_softmax_eval_only"]` (source
lines 21-25): `False if training else L < 2.0 * M`. -/
def useSoftmaxEvalOnly (L M : ℕ) (training : Bool) : Bool :=
  if training then false else decide (L < 2 * M)

/-- `SHORT_SEQUENCE_BEHAVIOR_CALLABLES["use_softmax_eval_and_train"]`. -/
def useSoftmaxEvalAndTrain (L M : ℕ) (_training : Bool) : Bool :=
  decide (L < 2 * M)

/-- `SHORT_SEQUENCE_BEHAVIOR_CALLABLES["never_use_softmax"]` (the policy the
constructor forces for the relu kernel). -/
def neverUseSoftmax (_L _M : ℕ) (_training : Bool) : Bool :=
  false

/-- Control-flow and feature-state projection of `PerformerAttention.forward`
(source lines 239-267): consult the fallback policy with the sequence length
and feature count; on fallback run the softmax branch (features untouched);
otherwise, if attention weights are requested, raise before
`_redraw_features_if_needed` runs (features untouched); otherwise proceed to
the FAVOR+ branch, whose first action is the feature redraw.  The TensorFlow
`TFPerformerAttention.call` (lines 142-164) has the identical gate, modelled
by `tfCallControl`. -/
def forwardControl {α : Type} (policy : ℕ → ℕ → Bool → Bool) (L m : ℕ)
    (training outputAttentions : Bool) (useOrth : Bool) (interval : Option ℕ)
    (stoch coin : Bool) (freshGauss orthFinal : α) (st : ModFeatState α) :
    ForwardPath × ModFeatState α :=
  if policy L m training then (ForwardPath.softmaxPath, st)
  else if outputAttentions then (ForwardPath.unsupportedError, st)
  else (ForwardPath.favorPath,
    redrawIfNeeded useOrth interval stoch coin freshGauss orthFinal st)

/-- Same gate in `TFPerformerAttention.call` (source lines 142-160). -/
def tfCallControl {α : Type} (policy : ℕ → ℕ → Bool → Bool) (L m : ℕ)
    (training outputAttentions : Bool) (useOrth : Bool) (interval : Option ℕ)
    (stoch coin : Bool) (freshGauss orthFinal : α) (st : ModFeatState α) :
    ForwardPath × ModFeatState α :=
  if policy L m training then (ForwardPath.softmaxPath, st)
  else if outputAttentions then (ForwardPath.unsupportedError, st)
  else (ForwardPath.favorPath,
    redrawIfNeeded useOrth interval stoch coin freshGauss orthFinal st)

/-- C9: in both backends, whenever the fallback policy selects the
approximate path (`policy L m training = false`) and `output_attentions` is
set, the forward call takes the unsupported-configuration error branch
(`raise ValueError`, source lines 259-261 and TF lines 156-158), and it does
so before any feature computation: the feature state is returned untouched,
and no attention-weight value of any kind is produced. -/
theorem favor_path_refuses_output_attentions {α : Type}
    (policy : ℕ → ℕ → Bool → Bool) (L m : ℕ) (training : Bool)
    (useOrth : Bool) (interval : Option ℕ) (stoch coin : Bool)
    (freshGauss orthFinal : α) (st : ModFeatState α)
    (hp : policy L m training = false) :
    forwardControl policy L m training true useOrth interval stoch coin
        freshGauss orthFinal st = (ForwardPath.unsupportedError, st)
    ∧ tfCallControl policy L m training true useOrth interval stoch coin
        freshGauss orthFinal st = (ForwardPath.unsupportedError, st) := by
  constructor <;> simp [forwardControl, tfCallControl, hp]

/-- Witness for C9: the relu-kernel configuration forces the never-fallback
policy, so a concrete call with `output_attentions = true` errors with the
feature state untouched. -/
theorem favor_path_refuses_output_attentions_witness :
    neverUseSoftmax 4 3 true = false
    ∧ forwardControl (α := ℕ) neverUseSoftmax 4 3 true true true (some 2)
        false false 9 9 ⟨some 1, 0⟩ = (ForwardPath.unsupportedError, ⟨some 1, 0⟩) :=
  ⟨rfl, (favor_path_refuses_output_attentions neverUseSoftmax 4 3 true true
    (some 2) false false 9 9 ⟨some 1, 0⟩ rfl).1⟩

/-- `KERNEL_CALLABLES["relu"]` (source line 18): `F.relu`, entrywise. -/
noncomputable def reluKernel (x : ℝ) : ℝ := max x 0

/-- `F.elu` with the default slope 1, entrywise. -/
noncomputable def eluRaw (x : ℝ) : ℝ := if 0 < x then x else Real.exp x - 1

/-- `KERNEL_CALLABLES["elu"]` (source line 17): `F.elu(x) + 1`, entrywise. -/
noncomputable def eluKernel (x : ℝ) : ℝ := eluRaw x + 1

/-- `KERNEL_CALLABLES["exp"]` (source line 16): `torch.exp(h + x)`,
entrywise, where `h` is the row value `h(x)` and `x` the (stabilized)
projected entry. -/
noncomputable def expKernel (h x : ℝ) : ℝ := Real.exp (h + x)

/-- `KERNEL_CALLABLES["cosh"]` (source line 15): the two entries
`exp(h + x)` and `exp(h - x)` that the kernel concatenates along the feature
axis. -/
noncomputable def coshKernelPair (h x : ℝ) : ℝ × ℝ := (Real.exp (h + x), Real.exp (h - x))

/-- Prime-feature entry on the generalized-attention path (source line 313):
`self.kernel_fn(x) + self.kernel_epsilon` — no `M^{-1/2}` factor is applied
on this path. -/
noncomputable def generalizedPrimeEntry (kfn : ℝ → ℝ) (ε x : ℝ) : ℝ := kfn x + ε

/-- Prime-feature entry on the softmax-approximation path (source lines
305-308): `normalizing_constant * (kernel_output + self.kernel_epsilon)`
with `normalizing_constant = Mf ** -0.5`, `Mf` the feature dimension of the
kernel output. -/
noncomputable def softmaxPrimeEntry (Mf : ℕ) (ε kout : ℝ) : ℝ :=
  (Mf : ℝ) ^ (-(1 / 2) : ℝ) * (kout + ε)

/-- The entry formula asserted by the claim for every kernel type: kernel
output multiplied by `Mf^{-1/2}`, with `kernel_epsilon` added afterwards. -/
noncomputable def claimedPrimeEntry (Mf : ℕ) (ε kout : ℝ) : ℝ :=
  (Mf : ℝ) ^ (-(1 / 2) : ℝ) * kout + ε

/-- C5 counterexample: on the relu path the code returns
`relu(x) + ε` with no `Mf^{-1/2}` factor at all.  At `x = 2`, `ε = 1`,
`Mf = 4` the code entry is `3` while the claimed formula gives
`(1/2)·2 + 1 = 2`. -/
theorem relu_prime_entry_not_claimed_formula :
    generalizedPrimeEntry reluKernel 1 2 = 3
    ∧ claimedPrimeEntry 4 1 (reluKernel 2) = 2
    ∧ generalizedPrimeEntry reluKernel 1 2 ≠ claimedPrimeEntry 4 1 (reluKernel 2) := by
  have h4 : (4 : ℝ) ^ (-(1 / 2) : ℝ) = 1 / 2 := by
    rw [show (4 : ℝ) = (2 : ℝ) ^ (2 : ℕ) by norm_num]
    rw [← Real.rpow_natCast (2 : ℝ) 2, ← Real.rpow_mul (by norm_num)]
    norm_num [Real.rpow_neg_one]
  refine ⟨?_, ?_, ?_⟩ <;>
    norm_num [generalizedPrimeEntry, claimedPrimeEntry, reluKernel, h4]

/-- C5 amended: the prime-feature entries the code actually produces are:
on the generalized path (relu, elu), `kernel(x) + ε` with no `Mf^{-1/2}`
factor; on the softmax path (exp, cosh), `Mf^{-1/2} · kernel + Mf^{-1/2} · ε`
— the epsilon is added before the scaling, hence also scaled.  In every case
the entry is strictly positive whenever `kernel_epsilon > 0` (for the
softmax path, with at least one feature). -/
theorem prime_entries_formulas_and_positive (x h ε : ℝ) (Mf : ℕ)
    (hε : 0 < ε) (hM : 1 ≤ Mf) :
    generalizedPrimeEntry reluKernel ε x = reluKernel x + ε
    ∧ generalizedPrimeEntry eluKernel ε x = eluKernel x + ε
    ∧ softmaxPrimeEntry Mf ε (expKernel h x)
        = (Mf : ℝ) ^ (-(1 / 2) : ℝ) * expKernel h x
          + (Mf : ℝ) ^ (-(1 / 2) : ℝ) * ε
    ∧ 0 < generalizedPrimeEntry reluKernel ε x
    ∧ 0 < generalizedPrimeEntry eluKernel ε x
    ∧ 0 < softmaxPrimeEntry Mf ε (expKernel h x)
    ∧ 0 < softmaxPrimeEntry Mf ε (coshKernelPair h x).1
    ∧ 0 < softmaxPrimeEntry Mf ε (coshKernelPair h x).2 := by
  have hMpos : (0 : ℝ) < (Mf : ℝ) := by
    exact_mod_cast Nat.lt_of_lt_of_le Nat.zero_lt_one hM
  have hc : (0 : ℝ) < (Mf : ℝ) ^ (-(1 / 2) : ℝ) := Real.rpow_pos_of_pos hMpos _
  refine ⟨rfl, rfl, by unfold softmaxPrimeEntry; ring, ?_, ?_, ?_, ?_, ?_⟩
  · have : (0 : ℝ) ≤ reluKernel x := le_max_right x 0
    unfold generalizedPrimeEntry
    linarith
  · have : (0 : ℝ) < eluKernel x := by
      unfold eluKernel eluRaw
      by_cases hx : 0 < x
      · simp only [hx, if_true]
        linarith
      · simp only [hx, if_false]
        have := Real.exp_pos x
        linarith
    unfold generalizedPrimeEntry
    linarith
  · exact mul_pos hc (add_pos (Real.exp_pos _) hε)
  · exact mul_pos hc (add_pos (Real.exp_pos _) hε)
  · exact mul_pos hc (add_pos (Real.exp_pos _) hε)

/-- Witness for C5 (amended) at `x = 0`, `h = 0`, `ε = 1`, `Mf = 1`. -/
theorem prime_entries_formulas_and_positive_witness :
    ((0 : ℝ) < 1 ∧ (1 : ℕ) ≤ 1)
    ∧ 0 < generalizedPrimeEntry reluKernel 1 0
    ∧ 0 < softmaxPrimeEntry 1 1 (expKernel 0 0) :=
  ⟨⟨by norm_num, le_refl 1⟩,
    (prime_entries_formulas_and_positive 0 0 1 1 (by norm_num) (le_refl 1)).2.2.2.1,
    (prime_entries_formulas_and_positive 0 0 1 1 (by norm_num) (le_refl 1)).2.2.2.2.2.1⟩
